import Mathlib

/-!
Verification of the MBR partition-table codec (src/mbr.c) and the archive
re-signing engine (src/fwup_sign.c) of fwup.

The C code is shallowly embedded: machine integers become Nat (with explicit
mod 2^32 where uint32 overflow matters and explicit mod 256 where a value is
stored into a uint8), byte buffers become List Nat, fixed arrays of four
partitions become functions from Fin 4, and fallible functions return Except.
-/

/-- The modulus of uint32 arithmetic. -/
def U32 : Nat := 4294967296

/-- A partition descriptor, mirroring struct mbr_partition (mbr.h).
The partition_type field is a C int, hence modelled as Int; the two
block fields are uint32, modelled as Nat carrying a well-formedness
bound of U32 in the theorems that need it. -/
structure mbr_partition where
  boot_flag : Bool
  expand_flag : Bool
  partition_type : Int
  block_offset : Nat
  block_count : Nat
deriving DecidableEq

/-- A partition table, mirroring struct mbr_table (mbr.h): exactly four
primary partition slots. -/
structure mbr_table where
  partitions : Fin 4 → mbr_partition

/-- An OSIP image descriptor, mirroring struct osii (mbr.h). The C field
named attribute is a uint8; the name attrib is used because attribute is a
Lean keyword. -/
structure osii where
  os_minor : Nat
  os_major : Nat
  start_block_offset : Nat
  ddr_load_address : Nat
  entry_point : Nat
  image_size : Nat
  attrib : Nat
deriving DecidableEq

/-- An OSIP header, mirroring struct osip_header (mbr.h). The descriptor
array of length 16 becomes a function from Fin 16. -/
structure osip_header where
  include_osip : Bool
  minor : Nat
  major : Nat
  num_pointers : Nat
  num_images : Nat
  descriptors : Fin 16 → osii

/-- Little-endian encoding of the low 16 bits of a value, as copy_le16. -/
def le16 (x : Nat) : List Nat := [x % 256, x / 256 % 256]

/-- Little-endian encoding of the low 32 bits of a value, as copy_le32. -/
def le32 (x : Nat) : List Nat :=
  [x % 256, x / 256 % 256, x / 65536 % 256, x / 16777216 % 256]

/-- Left endpoint of the block range of a partition, named ileft and jleft
in mbr_verify (mbr.c line 47). -/
def pleft (p : mbr_partition) : Nat := p.block_offset

/-- Right endpoint of the block range of a partition: ileft plus block_count
in uint32 arithmetic, named iright and jright in mbr_verify (mbr.c line 48). -/
def pright (p : mbr_partition) : Nat := (p.block_offset + p.block_count) % U32

/-- The type-range check of mbr_verify (mbr.c line 44): the C int
partition_type must lie within 0..0xff. True means the check passes. -/
def type_ok (p : mbr_partition) : Bool :=
  decide (0 ≤ p.partition_type ∧ p.partition_type ≤ 255)

/-- The two continue conditions of the outer loop of mbr_verify
(mbr.c lines 51 and 54): an empty slot (type 0) is skipped, and a
zero-extent slot without the expand flag is skipped. -/
def skip_p (p : mbr_partition) : Bool :=
  p.partition_type == 0 || (pleft p == pright p && !p.expand_flag)

/-- The overlap test of the inner loop of mbr_verify (mbr.c lines 77-78),
with p in the role of partition i and q in the role of partition j.
True means the error fires. -/
def overlap_hit (p q : mbr_partition) : Bool :=
  decide ((pleft p ≥ pleft q ∧ pleft p < pright q) ∨
          (pright p > pleft q ∧ pright p ≤ pright q))

/-- The participation condition for partition j in the inner loop of
mbr_verify (mbr.c lines 73-74): j is ignored when its type is 0 or its
range is empty. True means j participates. -/
def j_active (q : mbr_partition) : Bool :=
  !(q.partition_type == 0 || pleft q == pright q)

/-- The whole inner loop of mbr_verify (mbr.c lines 64-81) for a fixed i:
true when no overlap error fires against any other slot j. -/
def overlap_check (t : mbr_table) (i : Fin 4) : Bool :=
  (List.finRange 4).all fun j =>
    j == i || !j_active (t.partitions j) ||
      !overlap_hit (t.partitions i) (t.partitions j)

/-- The outer loop of mbr_verify (mbr.c lines 42-82) over the remaining
slot indices, threading the expanding flag (mbr.c line 38). True means
no error was raised. -/
def verify_loop (t : mbr_table) : List (Fin 4) → Bool → Bool
  | [], _ => true
  | i :: rest, expanding =>
    if type_ok (t.partitions i) = false then false
    else if skip_p (t.partitions i) = true then verify_loop t rest expanding
    else if expanding = true then false
    else if overlap_check t i = false then false
    else verify_loop t rest (expanding || (t.partitions i).expand_flag)

/-- mbr_verify (mbr.c lines 36-85): check that the partitions make sense
and do not overlap. True corresponds to the C return value 0. -/
def mbr_verify (t : mbr_table) : Bool :=
  verify_loop t (List.finRange 4) false

/-- lba_to_chs (mbr.c lines 87-100): convert a logical block address to a
cylinder/head/sector byte triple with the hardcoded geometry of 63 sectors
per head and 255 heads per cylinder. The C function writes nothing when the
address is out of CHS range, leaving the destination bytes as they were;
the embedding models the destination buffer as zero-initialized, so that
case yields the triple (0, 0, 0). -/
def lba_to_chs (lba : Nat) : Nat × Nat × Nat :=
  if lba ≤ 63 * 255 * 1023 then
    let cylinder := lba / (63 * 255)
    let head := (lba / 63) % 255
    let sector := lba % 63 + 1
    (head, ((cylinder &&& 768) >>> 2) ||| sector, cylinder &&& 255)
  else (0, 0, 0)

/-- The effective block count written by create_partition (mbr.c lines
104-109): when the expand flag is set and the total device size exceeds
offset plus count (uint32 compare), the count is grown to num_blocks minus
block_offset in uint32 arithmetic. -/
def effective_count (p : mbr_partition) (num_blocks : Nat) : Nat :=
  if p.expand_flag = true ∧ num_blocks > (p.block_offset + p.block_count) % U32
  then (num_blocks + (U32 - p.block_offset)) % U32
  else p.block_count

/-- create_partition (mbr.c lines 102-131): produce the 16-byte on-disk
partition entry. For a nonzero type the first 8 bytes are boot flag, CHS of
the start address, the type byte (int stored into uint8, hence mod 256) and
CHS of the end address (start plus effective count minus 1, uint32
arithmetic); for type 0 the first 8 bytes are cleared. Bytes 8-15 always
hold the little-endian block_offset and effective count (mbr.c lines
124-128). -/
def create_partition (p : mbr_partition) (num_blocks : Nat) : List Nat :=
  let bc := effective_count p num_blocks
  let schs := lba_to_chs p.block_offset
  let echs := lba_to_chs ((p.block_offset + bc + (U32 - 1)) % U32)
  (if p.partition_type > 0 then
    [if p.boot_flag then 128 else 0, schs.1, schs.2.1, schs.2.2,
     ((p.partition_type % 256).toNat), echs.1, echs.2.1, echs.2.2]
   else [0, 0, 0, 0, 0, 0, 0, 0])
  ++ le32 p.block_offset ++ le32 bc

/-- The 24-byte descriptor block written per image by write_osip
(mbr.c lines 156-168). The attribute field is a uint8, hence mod 256. -/
def osii_bytes (d : osii) : List Nat :=
  le16 d.os_minor ++ le16 d.os_major ++ le32 d.start_block_offset ++
  le32 d.ddr_load_address ++ le32 d.entry_point ++ le32 d.image_size ++
  [d.attrib % 256, 0, 0, 0]

/-- write_osip (mbr.c lines 133-177): serialize an OSIP header. The bytes
are the literal signature, a reserved zero, minor, major, a checksum byte
(placeholder 0 while the checksum is folded), num_pointers, num_images, the
little-endian header size, 20 reserved zeros and the per-image descriptors
in index order. The C loop reads descriptors[i] for i below num_images from
an array of 16, so the embedding takes at most 16 descriptors. The checksum
is the XOR fold of the whole header with the placeholder still 0 (the C
fold starts from output[0] and XORs the remaining bytes, which equals a
fold from 0), and it replaces the placeholder byte. -/
def write_osip (osip : osip_header) : List Nat :=
  let body :=
    (((List.finRange 16).take osip.num_images).map
      (fun i => osii_bytes (osip.descriptors i))).flatten
  let pre := [36, 79, 83, 36, 0, osip.minor % 256, osip.major % 256]
  let post := [osip.num_pointers % 256, osip.num_images % 256] ++
    le16 (32 + 24 * osip.num_images) ++ List.replicate 20 0 ++ body
  let sum := List.foldl (fun a b => a ^^^ b) 0 (pre ++ 0 :: post)
  pre ++ sum :: post

/-- mbr_create (mbr.c lines 189-225): build the 512-byte record. Bytes
0-439 are the bootstrap code, or zeros, with the OSIP header written over
the front when requested; then the little-endian disk signature, two zero
copy-protection bytes, the four 16-byte partition entries and the trailer
0x55 0xaa. Requesting both bootstrap and OSIP is an error, and the table
must pass mbr_verify. -/
def mbr_create (t : mbr_table) (bootstrap : Option (List Nat))
    (osip : osip_header) (signature num_blocks : Nat) :
    Except String (List Nat) :=
  if bootstrap.isSome ∧ osip.include_osip = true then
    .error "Cannot specify both bootstrap and OSIP in MBR"
  else if mbr_verify t = false then
    .error "mbr_verify failed"
  else
    let region :=
      match bootstrap with
      | some b => b
      | none => List.replicate 440 0
    let region :=
      if osip.include_osip = true then
        let h := write_osip osip
        h ++ region.drop h.length
      else region
    .ok (region ++ le32 signature ++ [0, 0] ++
      create_partition (t.partitions 0) num_blocks ++
      create_partition (t.partitions 1) num_blocks ++
      create_partition (t.partitions 2) num_blocks ++
      create_partition (t.partitions 3) num_blocks ++
      [85, 170])

/-- read_partition (mbr.c lines 227-242): extract boot flag, type, offset
and count from a 16-byte entry. The fields not assigned by the C function
stay at the zero left by the memset in mbr_decode, hence expand_flag is
false. Byte accesses out of range read as 0. -/
def read_partition (input : List Nat) : mbr_partition :=
  { boot_flag := input.getD 0 0 &&& 128 ≠ 0
    expand_flag := false
    partition_type := (input.getD 4 0 : Int)
    block_offset := input.getD 8 0 ||| input.getD 9 0 <<< 8 |||
      input.getD 10 0 <<< 16 ||| input.getD 11 0 <<< 24
    block_count := input.getD 12 0 ||| input.getD 13 0 <<< 8 |||
      input.getD 14 0 <<< 16 ||| input.getD 15 0 <<< 24 }

/-- The all-zero table produced by the memset at the top of mbr_decode
(mbr.c line 252). -/
def zero_table : mbr_table :=
  ⟨fun _ => ⟨false, false, 0, 0, 0⟩⟩

/-- mbr_decode (mbr.c lines 250-264): zero the caller table, reject a
buffer without the 0x55 0xaa trailer, otherwise extract the four entries at
offset 446 + 16 i. The result pairs the C return code with the final state
of the caller-owned table. -/
def mbr_decode (input : List Nat) : Int × mbr_table :=
  if input.getD 510 0 ≠ 85 ∨ input.getD 511 0 ≠ 170 then (-1, zero_table)
  else
    (0, ⟨fun i => read_partition ((input.drop (446 + 16 * i.val)).take 16)⟩)

/-- A partition subsection of the configuration as delivered by the
external confuse library to mbr_cfg_to_partitions (mbr.c lines 266-316).
The section title (a numeral string parsed with strtoul) is modelled as the
already-parsed index; the block-offset value string is modelled as an
Option Nat that is none when the string is missing, empty or unparsable. -/
structure partition_section where
  ix : Nat
  ptype : Int
  block_offset : Option Nat
  block_count : Int
  boot : Bool
  expand : Bool

/-- An osii subsection of the configuration as delivered to
mbr_cfg_to_osip (mbr.c lines 318-362), with the title numeral
already parsed. -/
structure osii_section where
  ix : Nat
  os_major : Nat
  os_minor : Nat
  start_block_offset : Nat
  ddr_load_address : Nat
  entry_point : Nat
  image_size : Nat
  attrib : Nat

/-- The slice of the configuration section tree consumed by the MBR code:
top-level scalars plus the partition and osii subsections in file order.
The signature string is modelled as its parsed value, since strtoul on it
is never error-checked by the C code. -/
structure mbr_cfg where
  bootstrap_code : Option String
  signature : Option Nat
  include_osip : Bool
  osip_major : Nat
  osip_minor : Nat
  osip_num_pointers : Nat
  osii_sections : List osii_section
  partition_sections : List partition_section

/-- The all-zero partition array left by the memset at the top of
mbr_cfg_to_partitions (mbr.c line 272). -/
def zero_partitions : Fin 4 → mbr_partition :=
  fun _ => ⟨false, false, 0, 0, 0⟩

/-- The loop of mbr_cfg_to_partitions (mbr.c lines 274-311): walk the
partition subsections, maintaining the bitmask of indices already seen and
the partition array. Checks, in source order: index in 0..3, no duplicate
index (then the bit is set), type in 0..255, block-offset present and below
UINT32_MAX, block-count (stored into the uint32 field, hence mod 2^32)
below INT32_MAX. -/
def partitions_loop :
    List partition_section → (Fin 4 → mbr_partition) → Nat →
    Except String ((Fin 4 → mbr_partition) × Nat)
  | [], parts, found => .ok (parts, found)
  | s :: rest, parts, found =>
    if s.ix ≥ 4 then .error "partition must be numbered 0 through 3"
    else if found &&& (1 <<< s.ix) ≠ 0 then
      .error "invalid or duplicate partition number found"
    else
      let found := found ||| (1 <<< s.ix)
      if s.ptype < 0 ∨ s.ptype > 255 then
        .error "partition type must be between 0 and 255"
      else
        match s.block_offset with
        | none => .error "partition block_offset is required"
        | some bo =>
          if bo ≥ 4294967295 then
            .error "partition block_offset must be positive and less than 2^32 - 1"
          else
            let bc := (s.block_count % 4294967296).toNat
            if bc ≥ 2147483647 then
              .error "partition block-count must be specified and less than 2^31 - 1"
            else
              partitions_loop rest
                (fun k => if k.val = s.ix then
                    ⟨s.boot, s.expand, s.ptype, bo, bc⟩
                  else parts k)
                found

/-- mbr_cfg_to_partitions (mbr.c lines 266-316): project the partition
subsections onto the four-slot array, also returning the bitmask of found
indices. -/
def mbr_cfg_to_partitions (cfg : mbr_cfg) :
    Except String ((Fin 4 → mbr_partition) × Nat) :=
  partitions_loop cfg.partition_sections zero_partitions 0

/-- The all-zero osii descriptor. -/
def zero_osii : osii := ⟨0, 0, 0, 0, 0, 0, 0⟩

/-- The loop of mbr_cfg_to_osip (mbr.c lines 335-356): walk the osii
subsections, maintaining the bitmask of seen indices, the largest index so
far (a C int starting at -1) and the descriptor array. An index of 15 or
more is rejected, then a duplicate index is rejected. The uint16 and uint8
descriptor fields truncate their configured values. -/
def osip_loop :
    List osii_section → Nat → Int → (Fin 16 → osii) →
    Except String (Nat × Int × (Fin 16 → osii))
  | [], found, largest, ds => .ok (found, largest, ds)
  | s :: rest, found, largest, ds =>
    if s.ix ≥ 15 then .error "osii must be numbered 0 through 15"
    else if found &&& (1 <<< s.ix) ≠ 0 then
      .error "invalid or duplicate osii number found"
    else
      osip_loop rest (found ||| (1 <<< s.ix))
        (if (s.ix : Int) > largest then (s.ix : Int) else largest)
        (fun k => if k.val = s.ix then
            ⟨s.os_minor % 65536, s.os_major % 65536, s.start_block_offset % U32,
             s.ddr_load_address % U32, s.entry_point % U32, s.image_size % U32,
             s.attrib % 256⟩
          else ds k)

/-- mbr_cfg_to_osip (mbr.c lines 318-362): project the OSIP configuration.
When include-osip is false the zeroed header is returned at once. Otherwise
the osii subsections are walked and num_images becomes the largest index
plus one; zero images is an error. -/
def mbr_cfg_to_osip (cfg : mbr_cfg) : Except String osip_header :=
  if cfg.include_osip = false then
    .ok ⟨false, 0, 0, 0, 0, fun _ => zero_osii⟩
  else
    match osip_loop cfg.osii_sections 0 (-1) (fun _ => zero_osii) with
    | .error e => .error e
    | .ok (_, largest, ds) =>
      let num_images := (largest + 1).toNat
      if num_images = 0 then .error "need to specify one or more osii"
      else
        .ok ⟨true, cfg.osip_minor % 256, cfg.osip_major % 256,
             cfg.osip_num_pointers % 256, num_images, ds⟩

/-- Modelled from the spec: hex_to_bytes lives in util.c, which is not part
of the sources under verification. Per the spec, bootstrap-code must decode
from hex to exactly the requested number of bytes; the model decodes hex
digit pairs and fails on a stray character or a length mismatch. -/
def hex_digit (c : Char) : Option Nat :=
  if 48 ≤ c.toNat ∧ c.toNat ≤ 57 then some (c.toNat - 48)
  else if 97 ≤ c.toNat ∧ c.toNat ≤ 102 then some (c.toNat - 87)
  else if 65 ≤ c.toNat ∧ c.toNat ≤ 70 then some (c.toNat - 55)
  else none

/-- Modelled from the spec: the digit-pair recursion behind hex_to_bytes. -/
def hex_pairs : List Char → Option (List Nat)
  | [] => some []
  | [_] => none
  | a :: b :: rest =>
    match hex_digit a, hex_digit b, hex_pairs rest with
    | some ha, some hb, some tl => some ((ha * 16 + hb) :: tl)
    | _, _, _ => none

/-- Modelled from the spec: hex_to_bytes (util.c, outside the verified
sources) decodes a hex string into a buffer of exactly len bytes. -/
def hex_to_bytes (s : String) (len : Nat) : Option (List Nat) :=
  match hex_pairs s.toList with
  | some bytes => if bytes.length = len then some bytes else none
  | none => none

/-- The tail of mbr_verify_cfg after the bootstrap length check
(mbr.c lines 376-387): the OSIP projection must succeed; OSIP and
bootstrap are mutually exclusive; the partition projection must succeed;
an empty partition table (found bitmask 0) is an error; finally the
projected table must pass mbr_verify. -/
def mbr_verify_cfg_rest (cfg : mbr_cfg) : Except String Unit :=
  match mbr_cfg_to_osip cfg with
  | .error e => .error e
  | .ok osip =>
    if osip.include_osip = true ∧ cfg.bootstrap_code.isSome then
      .error "cannot specify OSIP if including bootstrap code"
    else
      match mbr_cfg_to_partitions cfg with
      | .error e => .error e
      | .ok (parts, found) =>
        if found = 0 then .error "empty partition table?"
        else if mbr_verify ⟨parts⟩ = true then .ok ()
        else .error "mbr_verify failed"

/-- mbr_verify_cfg (mbr.c lines 364-388): the verify-only entry point.
The bootstrap-code hex string, when present, must be exactly 880
characters (440 bytes); the rest of the checks follow in source order. -/
def mbr_verify_cfg (cfg : mbr_cfg) : Except String Unit :=
  match cfg.bootstrap_code with
  | some s =>
    if s.length ≠ 880 then .error "bootstrap-code should be exactly 440 bytes"
    else mbr_verify_cfg_rest cfg
  | none => mbr_verify_cfg_rest cfg

/-- mbr_create_cfg (mbr.c lines 398-421): the encoding entry point. The
partition projection runs first (its found bitmask is discarded: the C code
passes NULL), then the OSIP projection, then the optional bootstrap hex
decode, then mbr_create with the parsed signature (0 when absent). -/
def mbr_create_cfg (cfg : mbr_cfg) (num_blocks : Nat) :
    Except String (List Nat) :=
  match mbr_cfg_to_partitions cfg with
  | .error e => .error e
  | .ok (parts, _) =>
    match mbr_cfg_to_osip cfg with
    | .error e => .error e
    | .ok osip =>
      match cfg.bootstrap_code with
      | some s =>
        match hex_to_bytes s 440 with
        | none => .error "hex_to_bytes failed"
        | some b =>
          mbr_create ⟨parts⟩ (some b) osip (cfg.signature.getD 0) num_blocks
      | none =>
        mbr_create ⟨parts⟩ none osip (cfg.signature.getD 0) num_blocks

/-- An archive entry as streamed by libarchive in fwup_sign.c: a pathname,
a permission word, a filetype word and the content bytes. -/
structure archive_entry where
  pathname : String
  perm : Nat
  filetype : Nat
  data : List Nat
deriving DecidableEq

/-- The libarchive regular-file constant AE_IFREG, used at
fwup_sign.c line 105. -/
def AE_IFREG : Nat := 32768

/-- Modelled from the spec: fwfile_add_meta_conf_str (fwfile.c, outside the
verified sources) writes a normalized meta.conf entry holding the captured
configuration text verbatim, followed by a fresh meta.conf.ed25519 entry
holding the detached signature of that text. The signing primitive is the
abstract function argument sign. -/
def fwfile_add_meta_conf_str (sign : List Nat → List Nat)
    (configtxt : List Nat) : List archive_entry :=
  [⟨"meta.conf", 420, AE_IFREG, configtxt⟩,
   ⟨"meta.conf.ed25519", 420, AE_IFREG, sign configtxt⟩]

/-- The entry loop of fwup_sign (fwup_sign.c lines 81-133) plus the final
missing-meta.conf check: walk the input entries with the captured
configuration text (configtxt, NULL modelled as none) and the output
entries written so far. A stale meta.conf.ed25519 is dropped; a meta.conf
is captured once (duplicates are an error), must have between 10 and 49999
bytes, and triggers the signed pair; any other entry before meta.conf is an
ordering error, and afterwards it is copied with its filetype forced to
regular and its permissions forced to 0644 (octal, 420 decimal). -/
def fwup_sign_loop (sign : List Nat → List Nat) :
    List archive_entry → Option (List Nat) → List archive_entry →
    Except String (List archive_entry)
  | [], configtxt, out =>
    match configtxt with
    | none => .error "Invalid firmware. No meta.conf found"
    | some _ => .ok out
  | e :: rest, configtxt, out =>
    if e.pathname = "meta.conf.ed25519" then
      fwup_sign_loop sign rest configtxt out
    else if e.pathname = "meta.conf" then
      match configtxt with
      | some _ => .error "Invalid firmware. More than one meta.conf found"
      | none =>
        if e.data.length < 10 ∨ e.data.length ≥ 50000 then
          .error "Unexpected meta.conf size"
        else
          fwup_sign_loop sign rest (some e.data)
            (out ++ fwfile_add_meta_conf_str sign e.data)
    else
      match configtxt with
      | none => .error "Invalid firmware. meta.conf must be at the beginning of archive"
      | some _ =>
        fwup_sign_loop sign rest configtxt
          (out ++ [⟨e.pathname, 420, AE_IFREG, e.data⟩])

/-- fwup_sign (fwup_sign.c lines 38-178) at the archive level: stream the
input entries and produce the output entries. An error result models the
error paths, on which the temporary output is unlinked and nothing replaces
the file at the output path; a successful result models the archive that is
atomically renamed onto the output path. -/
def fwup_sign (sign : List Nat → List Nat) (entries : List archive_entry) :
    Except String (List archive_entry) :=
  fwup_sign_loop sign entries none []

/-- The claim-side notion of the block range of a partition: the half-open
interval from block_offset to block_offset plus block_count, in unbounded
natural arithmetic. -/
def block_range (p : mbr_partition) : Set Nat :=
  Set.Ico p.block_offset (p.block_offset + p.block_count)

/-- The claim-side notion of an active slot: nonzero partition type
together with a nonzero extent or the expand flag. -/
def active_slot (p : mbr_partition) : Prop :=
  p.partition_type ≠ 0 ∧ (p.block_count ≠ 0 ∨ p.expand_flag = true)

/-- The table refuting C1 as stated: slot 0 is active with the expand flag
and range 0..10, slot 1 is active with range 100..110, the other slots are
empty. All active ranges are pairwise disjoint, yet mbr_verify fails,
because a partition follows the one with the expand flag. -/
def c1_table : mbr_table :=
  ⟨![⟨false, true, 1, 0, 10⟩, ⟨false, false, 1, 100, 10⟩,
     ⟨false, false, 0, 0, 0⟩, ⟨false, false, 0, 0, 0⟩]⟩

/-- A concrete table with two overlapping active slots: ranges 0..10 and
5..15 share the point 5. -/
def c1_bad_table : mbr_table :=
  ⟨![⟨false, false, 1, 0, 10⟩, ⟨false, false, 1, 5, 10⟩,
     ⟨false, false, 0, 0, 0⟩, ⟨false, false, 0, 0, 0⟩]⟩

/-- The concrete valid table from the spec example: type 0x83 at blocks
1..101 and type 0x0c at blocks 101..151, exactly adjacent. -/
def c1_good_table : mbr_table :=
  ⟨![⟨true, false, 131, 1, 100⟩, ⟨false, false, 12, 101, 50⟩,
     ⟨false, false, 0, 0, 0⟩, ⟨false, false, 0, 0, 0⟩]⟩

/-- A valid table whose last (and only) active slot has the expand flag:
type 1, blocks 0..100. -/
def c3_table : mbr_table :=
  ⟨![⟨false, true, 1, 0, 100⟩, ⟨false, false, 0, 0, 0⟩,
     ⟨false, false, 0, 0, 0⟩, ⟨false, false, 0, 0, 0⟩]⟩

/-- A table for the C3 witness: an expanding active slot 0 at blocks
10..30 followed by an active slot 1 at blocks 50..60. -/
def c3_witness_table : mbr_table :=
  ⟨![⟨false, true, 1, 10, 20⟩, ⟨false, false, 1, 50, 10⟩,
     ⟨false, false, 0, 0, 0⟩, ⟨false, false, 0, 0, 0⟩]⟩

/-- A concrete OSIP header with two images for the C4 witness. -/
def c4_osip : osip_header :=
  ⟨true, 1, 2, 3, 2, fun _ => ⟨7, 8, 9, 10, 11, 12, 13⟩⟩

/-- A concrete type-0 partition carrying offset and count metadata. -/
def c5_part : mbr_partition := ⟨true, false, 0, 77, 5⟩

/-- An absent OSIP header: include_osip false, every field zero. -/
def osip_none : osip_header := ⟨false, 0, 0, 0, 0, fun _ => zero_osii⟩

/-- A valid table whose slot 0 is an empty entry (type 0) that nevertheless
has boot_flag set in the in-memory representation. -/
def c2_table : mbr_table :=
  ⟨![⟨true, false, 0, 0, 0⟩, ⟨false, false, 0, 0, 0⟩,
     ⟨false, false, 0, 0, 0⟩, ⟨false, false, 0, 0, 0⟩]⟩

/-- The valid table used for the C2 witness: the two partitions of the
spec example plus two empty slots. -/
def c2_witness_table : mbr_table :=
  ⟨![⟨true, false, 131, 1, 100⟩, ⟨false, false, 12, 101, 50⟩,
     ⟨false, false, 0, 0, 0⟩, ⟨false, false, 0, 0, 0⟩]⟩

/-- A trivial stand-in for the signing primitive, used by the witnesses. -/
def sign0 : List Nat → List Nat := fun _ => [1, 2, 3]

/-- An archive whose first non-signature entry is a payload file, not
meta.conf. -/
def c7_bad_entries : List archive_entry :=
  [⟨"meta.conf.ed25519", 420, AE_IFREG, [0]⟩,
   ⟨"data.img", 493, AE_IFREG, [1, 2]⟩]

/-- An archive with meta.conf first followed by a payload file. -/
def c7_good_entries : List archive_entry :=
  [⟨"meta.conf", 420, AE_IFREG, List.replicate 12 7⟩,
   ⟨"data.img", 493, AE_IFREG, [1, 2]⟩]

/-- The spec example: a configuration declaring osii "15". -/
def c8_bad_cfg : mbr_cfg :=
  ⟨none, none, true, 0, 0, 0, [⟨15, 0, 0, 0, 0, 0, 0, 0⟩], []⟩

/-- A well-formed OSIP configuration with osii indices 0 and 2. -/
def c8_good_cfg : mbr_cfg :=
  ⟨none, none, true, 1, 2, 3,
   [⟨0, 1, 0, 5, 6, 7, 8, 9⟩, ⟨2, 1, 1, 15, 16, 17, 18, 19⟩], []⟩

/-- The empty configuration: no bootstrap, no signature, no OSIP, and no
partition sections. -/
def c10_cfg : mbr_cfg := ⟨none, none, false, 0, 0, 0, [], []⟩

/-- Bitwise or of a value below 2^k with a value shifted left by k is plain
addition: the operands occupy disjoint bit ranges. -/
lemma lor_two_pow_mul (k a b : Nat) (h : a < 2 ^ k) :
    a ||| b <<< k = a + b * 2 ^ k := by
  induction k generalizing a b with
  | zero =>
    have ha : a = 0 := by omega
    subst ha
    simp [Nat.shiftLeft_eq]
  | succ k ih =>
    have hpow : 2 ^ (k + 1) = 2 * 2 ^ k := by ring
    have hdiv : a / 2 < 2 ^ k := by omega
    have hbit : (decide (a % 2 = 1)).toNat = a % 2 := by
      rcases Nat.mod_two_eq_zero_or_one a with h2 | h2 <;> simp [h2]
    have ha : Nat.bit (decide (a % 2 = 1)) (a / 2) = a := by
      rw [Nat.bit_val, hbit]; omega
    have hb : Nat.bit false (b <<< k) = b <<< (k + 1) := by
      rw [Nat.bit_val, Nat.shiftLeft_eq, Nat.shiftLeft_eq, hpow]
      simp; ring
    calc a ||| b <<< (k + 1)
        = Nat.bit (decide (a % 2 = 1)) (a / 2) ||| Nat.bit false (b <<< k) := by
          rw [ha, hb]
      _ = Nat.bit (decide (a % 2 = 1) || false) (a / 2 ||| b <<< k) :=
          Nat.lor_bit _ _ _ _
      _ = Nat.bit (decide (a % 2 = 1)) (a / 2 + b * 2 ^ k) := by
          rw [Bool.or_false, ih _ b hdiv]
      _ = 2 * (a / 2 + b * 2 ^ k) + a % 2 := by rw [Nat.bit_val, hbit]
      _ = a + b * 2 ^ (k + 1) := by rw [hpow, Nat.mul_left_comm]; omega

/-- Reassembling the four little-endian bytes of a 32-bit value with the
shift-and-or expression of read_partition recovers the value. -/
lemma le32_decode (x : Nat) (h : x < U32) :
    x % 256 ||| (x / 256 % 256) <<< 8 ||| (x / 65536 % 256) <<< 16 |||
      (x / 16777216 % 256) <<< 24 = x := by
  have e8 : (2 : Nat) ^ 8 = 256 := by norm_num
  have e16 : (2 : Nat) ^ 16 = 65536 := by norm_num
  have e24 : (2 : Nat) ^ 24 = 16777216 := by norm_num
  rw [lor_two_pow_mul 8 _ _ (by omega)]
  rw [lor_two_pow_mul 16 _ _ (by rw [e16, e8]; omega)]
  rw [lor_two_pow_mul 24 _ _ (by rw [e24, e16, e8]; omega)]
  rw [e8, e16, e24]
  have hu : U32 = 4294967296 := rfl
  omega

/-- Folding XOR from an arbitrary accumulator factors the accumulator out. -/
lemma foldl_xor_eq (l : List Nat) (i : Nat) :
    l.foldl (fun a b => a ^^^ b) i = i ^^^ l.foldl (fun a b => a ^^^ b) 0 := by
  induction l generalizing i with
  | nil => simp
  | cons x xs ih =>
    simp only [List.foldl_cons]
    rw [ih (i ^^^ x), ih (0 ^^^ x), Nat.zero_xor, Nat.xor_assoc]

/-- When the stale expanding flag is already set, the rest of the
mbr_verify loop succeeds exactly when every remaining slot passes the type
check and is skipped. -/
lemma verify_loop_true (t : mbr_table) (l : List (Fin 4)) :
    verify_loop t l true = true ↔
      ∀ i ∈ l, type_ok (t.partitions i) = true ∧ skip_p (t.partitions i) = true := by
  induction l with
  | nil => simp [verify_loop]
  | cons i rest ih =>
    simp only [verify_loop]
    by_cases h1 : type_ok (t.partitions i) = true
    · by_cases h2 : skip_p (t.partitions i) = true
      · simp [h1, h2, ih, List.forall_mem_cons]
      · simp [h1, h2, List.forall_mem_cons]
    · simp [Bool.not_eq_true] at h1
      simp [h1, List.forall_mem_cons]

/-- Characterization of the mbr_verify loop started with a clear expanding
flag: it succeeds exactly when every slot passes the type check, every
non-skipped slot passes the overlap scan, and no non-skipped slot with the
expand flag precedes another non-skipped slot. -/
lemma verify_loop_false (t : mbr_table) (l : List (Fin 4)) :
    verify_loop t l false = true ↔
      ((∀ i ∈ l, type_ok (t.partitions i) = true) ∧
       (∀ i ∈ l, skip_p (t.partitions i) = false → overlap_check t i = true) ∧
       l.Pairwise (fun i j => skip_p (t.partitions i) = false →
         skip_p (t.partitions j) = false → (t.partitions i).expand_flag = false)) := by
  induction l with
  | nil => simp [verify_loop]
  | cons i rest ih =>
    simp only [verify_loop]
    by_cases h1 : type_ok (t.partitions i) = true
    · by_cases h2 : skip_p (t.partitions i) = true
      · simp [h1, h2, ih, List.forall_mem_cons, List.pairwise_cons]
      · simp only [Bool.not_eq_true] at h2
        by_cases h3 : overlap_check t i = true
        · by_cases h4 : (t.partitions i).expand_flag = true
          · rw [if_neg (by simp [h1]), if_neg (by simp [h2]),
                if_neg (by simp), if_neg (by simp [h3]), Bool.false_or, h4,
                verify_loop_true]
            constructor
            · intro h
              refine ⟨?_, ?_, ?_⟩
              · intro j hj
                rcases List.mem_cons.1 hj with rfl | hj2
                · exact h1
                · exact (h j hj2).1
              · intro j hj hs
                rcases List.mem_cons.1 hj with rfl | hj2
                · exact h3
                · rcases h j hj2 with ⟨-, hskip⟩
                  rw [hskip] at hs; cases hs
              · refine List.pairwise_cons.2 ⟨?_, ?_⟩
                · intro j hj hsi hjs
                  rcases h j hj with ⟨-, hskip⟩
                  rw [hskip] at hjs; cases hjs
                · refine List.pairwise_of_forall_mem_list ?_
                  intro a ha b hb hsa hsb
                  rcases h a ha with ⟨-, hskip⟩
                  rw [hskip] at hsa; cases hsa
            · rintro ⟨hty, -, hpw⟩
              rcases List.pairwise_cons.1 hpw with ⟨hhead, -⟩
              intro j hj
              refine ⟨hty j (List.mem_cons_of_mem _ hj), ?_⟩
              by_cases hjs : skip_p (t.partitions j) = true
              · exact hjs
              · simp only [Bool.not_eq_true] at hjs
                have hexp := hhead j hj h2 hjs
                rw [h4] at hexp; cases hexp
          · simp only [Bool.not_eq_true] at h4
            rw [if_neg (by simp [h1]), if_neg (by simp [h2]),
                if_neg (by simp), if_neg (by simp [h3]), Bool.false_or, h4, ih]
            simp [List.forall_mem_cons, List.pairwise_cons, h1, h2, h3, h4]
        · simp only [Bool.not_eq_true] at h3
          rw [if_neg (by simp [h1]), if_neg (by simp [h2]), if_neg (by simp)]
          rw [if_pos (by simp [h3])]
          simp [List.forall_mem_cons, h2, h3]
    · simp only [Bool.not_eq_true] at h1
      rw [if_pos (by simp [h1])]
      simp [List.forall_mem_cons, h1]

/-- Every slot index occurs in the literal list of the four indices. -/
lemma fin4_mem : ∀ i : Fin 4, i ∈ ([0, 1, 2, 3] : List (Fin 4)) := by decide

/-- Pairwise over the literal four-index list is the same as a statement
over every ordered pair of indices. -/
lemma pairwise_fin4 (R : Fin 4 → Fin 4 → Prop) :
    ([0, 1, 2, 3] : List (Fin 4)).Pairwise R ↔ ∀ i j : Fin 4, i < j → R i j := by
  constructor
  · intro h i j hij
    rcases h with - | ⟨h0, h⟩
    rcases h with - | ⟨h1, h⟩
    rcases h with - | ⟨h2, -⟩
    fin_cases i <;> fin_cases j <;>
      first
      | exact absurd hij (by decide)
      | exact h0 _ (by decide)
      | exact h1 _ (by decide)
      | exact h2 _ (by decide)
  · intro h
    refine List.Pairwise.cons ?_ (List.Pairwise.cons ?_
      (List.Pairwise.cons ?_ (List.Pairwise.cons ?_ List.Pairwise.nil)))
    · intro a ha
      fin_cases ha <;> exact h _ _ (by decide)
    · intro a ha
      fin_cases ha <;> exact h _ _ (by decide)
    · intro a ha
      fin_cases ha <;> exact h _ _ (by decide)
    · intro a ha
      cases ha

/-- Full characterization of mbr_verify: it succeeds exactly when every
slot passes the type-range check, every non-skipped slot passes the overlap
scan, and no non-skipped slot with the expand flag precedes another
non-skipped slot. -/
lemma mbr_verify_true_iff (t : mbr_table) :
    mbr_verify t = true ↔
      ((∀ i : Fin 4, type_ok (t.partitions i) = true) ∧
       (∀ i : Fin 4, skip_p (t.partitions i) = false → overlap_check t i = true) ∧
       (∀ i j : Fin 4, i < j → skip_p (t.partitions i) = false →
          skip_p (t.partitions j) = false → (t.partitions i).expand_flag = false)) := by
  have hfr : List.finRange 4 = ([0, 1, 2, 3] : List (Fin 4)) := by decide
  rw [mbr_verify, hfr, verify_loop_false, pairwise_fin4]
  constructor
  · rintro ⟨ha, hb, hc⟩
    exact ⟨fun i => ha i (fin4_mem i), fun i => hb i (fin4_mem i), hc⟩
  · rintro ⟨ha, hb, hc⟩
    exact ⟨fun i _ => ha i, fun i _ => hb i, hc⟩

/-- The inner overlap scan succeeds exactly when the overlap test fires
against no participating other slot. -/
lemma overlap_check_true_iff (t : mbr_table) (i : Fin 4) :
    overlap_check t i = true ↔
      ∀ j : Fin 4, j ≠ i → j_active (t.partitions j) = true →
        overlap_hit (t.partitions i) (t.partitions j) = false := by
  rw [overlap_check, List.all_eq_true]
  constructor
  · intro h j hne hact
    have hj := h j (List.mem_finRange j)
    simp only [Bool.or_eq_true, beq_iff_eq, Bool.not_eq_true'] at hj
    rcases hj with (rfl | hf) | hf
    · exact absurd rfl hne
    · rw [hact] at hf; cases hf
    · exact hf
  · intro h j _
    simp only [Bool.or_eq_true, beq_iff_eq, Bool.not_eq_true']
    by_cases hji : j = i
    · exact Or.inl (Or.inl hji)
    · by_cases hact : j_active (t.partitions j) = true
      · exact Or.inr (h j hji hact)
      · refine Or.inl (Or.inr ?_)
        revert hact
        cases j_active (t.partitions j) <;> simp

/-- A slot escapes both continue conditions of the mbr_verify outer loop
exactly when its type is nonzero and it has a nonzero uint32 extent or the
expand flag. -/
lemma skip_p_false_iff (p : mbr_partition) :
    skip_p p = false ↔
      (p.partition_type ≠ 0 ∧ (pleft p ≠ pright p ∨ p.expand_flag = true)) := by
  rw [skip_p]
  cases he : p.expand_flag <;>
    simp [Bool.or_eq_false_iff, Bool.and_eq_false_iff, he]

/-- A slot participates in the inner overlap scan exactly when its type is
nonzero and its uint32 extent is nonzero. -/
lemma j_active_true_iff (q : mbr_partition) :
    j_active q = true ↔ (q.partition_type ≠ 0 ∧ pleft q ≠ pright q) := by
  rw [j_active]
  simp [Bool.or_eq_false_iff]

/-- Without uint32 overflow the right endpoint is plain addition. -/
lemma pright_no_overflow (p : mbr_partition)
    (h : p.block_offset + p.block_count < U32) :
    pright p = p.block_offset + p.block_count := by
  rw [pright, Nat.mod_eq_of_lt h]

/-- C1, amended. Consider tables free of uint32 overflow (each slot has
block_offset + block_count below 2^32). Error direction: whenever two
distinct slots both have nonzero type and their block ranges share a
point, mbr_verify fails. Success direction: when every type lies in
0..255, every active slot with the expand flag has a nonzero extent, the
ranges of slots with nonzero type and extent are pairwise disjoint, and
the expand flag appears on no such slot that precedes another one, then
mbr_verify succeeds. -/
theorem mbr_verify_overlap_iff (t : mbr_table)
    (hwf : ∀ i : Fin 4,
      (t.partitions i).block_offset + (t.partitions i).block_count < U32) :
    ((∃ i j : Fin 4, i ≠ j ∧
        (t.partitions i).partition_type ≠ 0 ∧
        (t.partitions j).partition_type ≠ 0 ∧
        (∃ x, x ∈ block_range (t.partitions i) ∧
              x ∈ block_range (t.partitions j))) →
      mbr_verify t = false) ∧
    (((∀ i : Fin 4, 0 ≤ (t.partitions i).partition_type ∧
         (t.partitions i).partition_type ≤ 255) ∧
      (∀ i : Fin 4, (t.partitions i).partition_type ≠ 0 →
         (t.partitions i).expand_flag = true → (t.partitions i).block_count ≠ 0) ∧
      (∀ i j : Fin 4, i ≠ j →
         (t.partitions i).partition_type ≠ 0 → (t.partitions j).partition_type ≠ 0 →
         (t.partitions i).block_count ≠ 0 → (t.partitions j).block_count ≠ 0 →
         ¬ ∃ x, x ∈ block_range (t.partitions i) ∧
                x ∈ block_range (t.partitions j)) ∧
      (∀ i j : Fin 4, i < j →
         (t.partitions i).partition_type ≠ 0 → (t.partitions i).block_count ≠ 0 →
         (t.partitions j).partition_type ≠ 0 → (t.partitions j).block_count ≠ 0 →
         (t.partitions i).expand_flag = false)) →
      mbr_verify t = true) := by
  constructor
  · rintro ⟨i, j, hne, hti, htj, x, hxi, hxj⟩
    cases hv : mbr_verify t with
    | false => rfl
    | true =>
      exfalso
      rcases (mbr_verify_true_iff t).1 hv with ⟨-, hov, -⟩
      simp only [block_range, Set.mem_Ico] at hxi hxj
      have hci : (t.partitions i).block_count ≠ 0 := by omega
      have hcj : (t.partitions j).block_count ≠ 0 := by omega
      have hri := pright_no_overflow _ (hwf i)
      have hrj := pright_no_overflow _ (hwf j)
      have hski : skip_p (t.partitions i) = false := by
        rw [skip_p_false_iff]
        refine ⟨hti, Or.inl ?_⟩
        rw [hri]; unfold pleft; omega
      have hja : j_active (t.partitions j) = true := by
        rw [j_active_true_iff]
        refine ⟨htj, ?_⟩
        rw [hrj]; unfold pleft; omega
      have hhit := ((overlap_check_true_iff t i).1 (hov i hski)) j hne.symm hja
      have hskj : skip_p (t.partitions j) = false := by
        rw [skip_p_false_iff]
        refine ⟨htj, Or.inl ?_⟩
        rw [hrj]; unfold pleft; omega
      have hia : j_active (t.partitions i) = true := by
        rw [j_active_true_iff]
        refine ⟨hti, ?_⟩
        rw [hri]; unfold pleft; omega
      have hhit2 := ((overlap_check_true_iff t j).1 (hov j hskj)) i hne hia
      simp only [overlap_hit, decide_eq_false_iff_not, not_or, not_and, not_le,
        not_lt] at hhit hhit2
      rw [hri, hrj] at hhit hhit2
      unfold pleft at hhit hhit2
      omega
  · rintro ⟨hty, hexp_cnt, hdis, hord⟩
    rw [mbr_verify_true_iff]
    have hactive : ∀ i : Fin 4, skip_p (t.partitions i) = false →
        (t.partitions i).partition_type ≠ 0 ∧ (t.partitions i).block_count ≠ 0 := by
      intro i hsk
      rcases (skip_p_false_iff _).1 hsk with ⟨htne, hor⟩
      refine ⟨htne, ?_⟩
      rcases hor with hne | hef
      · rw [pright_no_overflow _ (hwf i)] at hne
        unfold pleft at hne
        omega
      · exact hexp_cnt i htne hef
    refine ⟨?_, ?_, ?_⟩
    · intro i
      rw [type_ok, decide_eq_true_iff]
      exact hty i
    · intro i hsk
      rcases hactive i hsk with ⟨hti, hci⟩
      rw [overlap_check_true_iff]
      intro j hne hja
      rcases (j_active_true_iff _).1 hja with ⟨htj, hrj⟩
      have hcj : (t.partitions j).block_count ≠ 0 := by
        rw [pright_no_overflow _ (hwf j)] at hrj
        unfold pleft at hrj
        omega
      have hd := hdis i j (fun he => hne he.symm) hti htj hci hcj
      cases hh : overlap_hit (t.partitions i) (t.partitions j) with
      | false => rfl
      | true =>
        exfalso
        apply hd
        simp only [overlap_hit, decide_eq_true_iff] at hh
        rw [pright_no_overflow _ (hwf i), pright_no_overflow _ (hwf j)] at hh
        unfold pleft at hh
        simp only [block_range, Set.mem_Ico]
        rcases hh with ⟨h1, h2⟩ | ⟨h1, h2⟩
        · exact ⟨(t.partitions i).block_offset, by omega, by omega⟩
        · exact ⟨(t.partitions i).block_offset +
            (t.partitions i).block_count - 1, by omega, by omega⟩
    · intro i j hij hsi hsj
      rcases hactive i hsi with ⟨hti, hci⟩
      rcases hactive j hsj with ⟨htj, hcj⟩
      exact hord i j hij hti hci htj hcj

/-- C1, counterexample to the claim as stated: in c1_table the active
slots (nonzero type with nonzero extent or expand flag) have pairwise
disjoint block ranges, yet mbr_verify returns an error. -/
theorem c1_counterexample :
    (∀ i j : Fin 4, i ≠ j →
       active_slot (c1_table.partitions i) → active_slot (c1_table.partitions j) →
       ¬ ∃ x, x ∈ block_range (c1_table.partitions i) ∧
              x ∈ block_range (c1_table.partitions j)) ∧
    mbr_verify c1_table = false := by
  constructor
  · intro i j hne hai haj
    rintro ⟨x, hxi, hxj⟩
    simp only [block_range, Set.mem_Ico] at hxi hxj
    rcases hai with ⟨hti, -⟩
    rcases haj with ⟨htj, -⟩
    fin_cases i <;> fin_cases j <;>
      first
      | exact hne rfl
      | ((simp [c1_table] at hti htj hxi hxj) <;> omega)
  · decide

/-- C1, witness: both directions of the amended theorem applied at
concrete tables. -/
theorem c1_witness :
    mbr_verify c1_bad_table = false ∧ mbr_verify c1_good_table = true := by
  constructor
  · refine (mbr_verify_overlap_iff c1_bad_table (by decide)).1
      ⟨0, 1, by decide, by decide, by decide, 5, ?_, ?_⟩
    · simp [c1_bad_table, block_range, Set.mem_Ico]
    · simp [c1_bad_table, block_range, Set.mem_Ico]
  · refine (mbr_verify_overlap_iff c1_good_table (by decide)).2
      ⟨by decide, by decide, ?_, by decide⟩
    intro i j hne hti htj hci hcj
    rintro ⟨x, hxi, hxj⟩
    simp only [block_range, Set.mem_Ico] at hxi hxj
    fin_cases i <;> fin_cases j <;>
      first
      | exact hne rfl
      | ((simp [c1_good_table] at hti htj hxi hxj) <;> omega)

/-- Dropping the first 12 bytes of an encoded partition entry leaves the
little-endian effective count, in both branches of the type test. -/
lemma create_partition_drop12 (p : mbr_partition) (nb : Nat) :
    (create_partition p nb).drop 12 = le32 (effective_count p nb) := by
  simp only [create_partition]
  refine List.drop_left' ?_
  rw [List.length_append]
  split <;> simp [le32]

/-- C3 (amended): for a slot carrying the expand flag in a table without
uint32 overflow, first, when num_blocks strictly exceeds offset plus count,
the entry bytes 12-15 encode num_blocks minus block_offset (for any smaller
nonzero num_blocks the declared count is kept, as the counterexample
shows); second, if that slot has nonzero type and a later slot is active,
mbr_verify fails. -/
theorem c3_expand_behaviour (t : mbr_table) (i j : Fin 4) (nb : Nat)
    (hwf : (t.partitions i).block_offset + (t.partitions i).block_count < U32)
    (hwfj : (t.partitions j).block_offset + (t.partitions j).block_count < U32)
    (hnb : nb < U32)
    (hexp : (t.partitions i).expand_flag = true) :
    ((t.partitions i).block_offset + (t.partitions i).block_count < nb →
       (create_partition (t.partitions i) nb).drop 12 =
         le32 (nb - (t.partitions i).block_offset)) ∧
    (i < j → (t.partitions i).partition_type ≠ 0 → active_slot (t.partitions j) →
       mbr_verify t = false) := by
  constructor
  · intro hgrow
    rw [create_partition_drop12]
    rw [effective_count, if_pos ⟨hexp, by rw [Nat.mod_eq_of_lt hwf]; omega⟩]
    congr 1
    unfold U32 at hwf hnb ⊢
    omega
  · intro hij hti hactj
    cases hv : mbr_verify t with
    | false => rfl
    | true =>
      exfalso
      rcases (mbr_verify_true_iff t).1 hv with ⟨-, -, hord⟩
      have hski : skip_p (t.partitions i) = false :=
        (skip_p_false_iff _).2 ⟨hti, Or.inr hexp⟩
      have hskj : skip_p (t.partitions j) = false := by
        rcases hactj with ⟨htj, hcj | hej⟩
        · refine (skip_p_false_iff _).2 ⟨htj, Or.inl ?_⟩
          rw [pright_no_overflow _ hwfj]
          unfold pleft
          omega
        · exact (skip_p_false_iff _).2 ⟨htj, Or.inr hej⟩
      have hfalse := hord i j hij hski hskj
      rw [hexp] at hfalse
      cases hfalse

/-- C3, counterexample to the claim as stated: with the valid expanding
table c3_table and the nonzero num_blocks 1 (which does not exceed offset
plus count), the encoded count field keeps the declared 100 rather than
num_blocks minus offset, which would be 1. -/
theorem c3_counterexample :
    mbr_verify c3_table = true ∧
    (c3_table.partitions 0).expand_flag = true ∧
    (1 : Nat) ≠ 0 ∧
    (create_partition (c3_table.partitions 0) 1).drop 12 = le32 100 ∧
    le32 100 ≠ le32 (1 - (c3_table.partitions 0).block_offset) := by
  decide

/-- C3, witness: both parts of the amended theorem applied at the concrete
table, with num_blocks 200. -/
theorem c3_witness :
    (create_partition (c3_witness_table.partitions 0) 200).drop 12 =
      le32 (200 - (c3_witness_table.partitions 0).block_offset) ∧
    mbr_verify c3_witness_table = false := by
  have h := c3_expand_behaviour c3_witness_table 0 1 200
    (by decide) (by decide) (by decide) (by decide)
  exact ⟨h.1 (by decide), h.2 (by decide) (by decide) ⟨by decide, Or.inl (by decide)⟩⟩

/-- The descriptor body contributes 24 bytes per image. -/
lemma body_length (f : Fin 16 → osii) (l : List (Fin 16)) :
    ((l.map (fun i => osii_bytes (f i))).flatten).length = 24 * l.length := by
  induction l with
  | nil => simp
  | cons a l ih =>
    simp only [List.map_cons, List.flatten_cons, List.length_append, ih,
      List.length_cons]
    simp [osii_bytes, le16, le32]
    ring

/-- Folding XOR over a buffer whose checksum slot holds the XOR fold of
the same buffer with a zero in that slot always yields zero. -/
lemma xor_fold_insert (pre post : List Nat) :
    (pre ++ (List.foldl (fun a b => a ^^^ b) 0 (pre ++ 0 :: post)) :: post).foldl
      (fun a b => a ^^^ b) 0 = 0 := by
  set P := List.foldl (fun a b => a ^^^ b) 0 pre with hP
  set Q := List.foldl (fun a b => a ^^^ b) 0 post with hQ
  have hs : List.foldl (fun a b => a ^^^ b) 0 (pre ++ 0 :: post) = P ^^^ Q := by
    rw [List.foldl_append, List.foldl_cons, ← hP, Nat.xor_zero,
      foldl_xor_eq post P, ← hQ]
  rw [hs, List.foldl_append, ← hP, List.foldl_cons, foldl_xor_eq post _, ← hQ,
    ← Nat.xor_assoc, Nat.xor_self, Nat.zero_xor, Nat.xor_self]

/-- C4: the serialized OSIP header of any header accepted by the config
projector (at most 16 images, the projector itself stops at 15) spans
32 + 24 * num_images bytes, and XOR-folding all of them, the checksum byte
at offset 7 included, yields 0. -/
theorem write_osip_checksum (osip : osip_header) (h : osip.num_images ≤ 16) :
    (write_osip osip).length = 32 + 24 * osip.num_images ∧
    (write_osip osip).foldl (fun a b => a ^^^ b) 0 = 0 := by
  constructor
  · simp only [write_osip, List.length_append, List.length_cons, le16,
      body_length, List.length_take, List.length_finRange, List.length_replicate]
    have hmin : min osip.num_images 16 = osip.num_images := by omega
    simp [hmin]
    omega
  · simp only [write_osip]
    exact xor_fold_insert _ _

/-- C4, witness: the checksum theorem applied at the concrete header. -/
theorem c4_witness :
    (write_osip c4_osip).length = 32 + 24 * c4_osip.num_images ∧
    (write_osip c4_osip).foldl (fun a b => a ^^^ b) 0 = 0 :=
  write_osip_checksum c4_osip (by decide)

/-- C5: every encoded partition entry is 16 bytes; when the partition type
is 0 the first 8 bytes are cleared to zero; and for every type, bytes 8-11
are the little-endian block_offset and bytes 12-15 the little-endian
effective block count. -/
theorem create_partition_layout (p : mbr_partition) (nb : Nat) :
    (create_partition p nb).length = 16 ∧
    (p.partition_type = 0 →
      (create_partition p nb).take 8 = List.replicate 8 0) ∧
    (create_partition p nb).drop 8 =
      le32 p.block_offset ++ le32 (effective_count p nb) := by
  refine ⟨?_, ?_, ?_⟩
  · simp only [create_partition, List.length_append]
    split <;> simp [le32]
  · intro h0
    simp only [create_partition]
    rw [if_neg (by rw [h0]; omega), List.append_assoc]
    rw [List.take_left' (by simp)]
    rfl
  · simp only [create_partition]
    rw [List.append_assoc]
    refine List.drop_left' ?_
    split <;> simp

/-- C5, witness: the layout theorem applied at a concrete type-0 slot. -/
theorem c5_witness :
    (create_partition c5_part 0).length = 16 ∧
    (create_partition c5_part 0).take 8 = List.replicate 8 0 ∧
    (create_partition c5_part 0).drop 8 =
      le32 c5_part.block_offset ++ le32 (effective_count c5_part 0) := by
  have h := create_partition_layout c5_part 0
  exact ⟨h.1, h.2.1 (by decide), h.2.2⟩

set_option maxRecDepth 8192 in
/-- The two bit-packing identities of the CHS middle and low bytes, checked
for every cylinder value representable in 10 bits. -/
lemma chs_pack_eq :
    ∀ c : Nat, c < 1024 →
      ((c &&& 768) >>> 2 = ((c >>> 8) &&& 3) <<< 6 ∧ c &&& 255 = c % 256) := by
  decide

/-- C6: for a block address beyond 63 * 255 * 1023 the CHS triple placed in
the encoded entry is all zero; otherwise it is head, then the two high
cylinder bits shifted into the top of the sector byte, then the low
cylinder byte, with cylinder = lba / (63 * 255), head = lba / 63 % 255 and
sector = lba % 63 + 1. -/
theorem lba_to_chs_spec (lba : Nat) (h : lba < U32) :
    (63 * 255 * 1023 < lba → lba_to_chs lba = (0, 0, 0)) ∧
    (lba ≤ 63 * 255 * 1023 →
      lba_to_chs lba =
        (lba / 63 % 255,
         (((lba / (63 * 255)) >>> 8) &&& 3) <<< 6 ||| (lba % 63 + 1),
         lba / (63 * 255) % 256)) := by
  constructor
  · intro hgt
    rw [lba_to_chs, if_neg (by omega)]
  · intro hle
    simp only [lba_to_chs, if_pos hle]
    have hc : lba / (63 * 255) < 1024 := by omega
    rcases chs_pack_eq (lba / (63 * 255)) hc with ⟨h1, h2⟩
    rw [h1, h2]

/-- C6, witness: the CHS theorem applied at one out-of-range and one
in-range concrete address. -/
theorem c6_witness :
    lba_to_chs 20000000 = (0, 0, 0) ∧
    lba_to_chs 100000 =
      (100000 / 63 % 255,
       (((100000 / (63 * 255)) >>> 8) &&& 3) <<< 6 ||| (100000 % 63 + 1),
       100000 / (63 * 255) % 256) := by
  have h1 := lba_to_chs_spec 20000000 (by decide)
  have h2 := lba_to_chs_spec 100000 (by decide)
  exact ⟨h1.1 (by decide), h2.2 (by decide)⟩

/-- An encoded partition entry is always 16 bytes. -/
lemma create_partition_length (p : mbr_partition) (nb : Nat) :
    (create_partition p nb).length = 16 := by
  simp only [create_partition, List.length_append]
  split <;> simp [le32]

/-- Reading past a prefix of known length lands in the suffix. -/
lemma getD_append_at (a b : List Nat) (n k d : Nat) (h : a.length = n)
    (hk : n ≤ k) : (a ++ b).getD k d = b.getD (k - n) d := by
  subst h
  rw [List.getD_eq_getElem?_getD, List.getD_eq_getElem?_getD,
    List.getElem?_append_right hk]

/-- Unfolding read_partition on an explicit 16-byte entry. -/
lemma read_partition_explicit
    (b0 b1 b2 b3 b4 b5 b6 b7 b8 b9 b10 b11 b12 b13 b14 b15 : Nat) :
    read_partition [b0, b1, b2, b3, b4, b5, b6, b7,
                    b8, b9, b10, b11, b12, b13, b14, b15] =
      ⟨b0 &&& 128 ≠ 0, false, (b4 : Int),
       b8 ||| b9 <<< 8 ||| b10 <<< 16 ||| b11 <<< 24,
       b12 ||| b13 <<< 8 ||| b14 <<< 16 ||| b15 <<< 24⟩ := rfl

/-- The effective count always stays below 2^32 when the declared count
does. -/
lemma effective_count_lt (p : mbr_partition) (nb : Nat)
    (hc : p.block_count < U32) : effective_count p nb < U32 := by
  rw [effective_count]
  split
  · exact Nat.mod_lt _ (by decide)
  · exact hc

/-- Decoding an encoded entry recovers type, offset, effective count, and
(for a nonzero type) the boot flag. -/
lemma read_create_fields (p : mbr_partition) (nb : Nat)
    (hoff : p.block_offset < U32) (hcnt : p.block_count < U32)
    (h0 : 0 ≤ p.partition_type) (h255 : p.partition_type ≤ 255) :
    (read_partition (create_partition p nb)).partition_type =
      p.partition_type ∧
    (read_partition (create_partition p nb)).block_offset = p.block_offset ∧
    (read_partition (create_partition p nb)).block_count =
      effective_count p nb ∧
    (p.partition_type ≠ 0 →
      (read_partition (create_partition p nb)).boot_flag = p.boot_flag) := by
  have heff := effective_count_lt p nb hcnt
  by_cases hp : p.partition_type > 0
  · simp only [create_partition, if_pos hp, le32, List.cons_append,
      List.nil_append]
    rw [read_partition_explicit]
    refine ⟨?_, ?_, ?_, ?_⟩
    · show (((p.partition_type % 256).toNat : Nat) : Int) = p.partition_type
      rw [Int.emod_eq_of_lt h0 (by omega), Int.toNat_of_nonneg h0]
    · exact le32_decode _ hoff
    · exact le32_decode _ heff
    · intro _hne
      cases hpb : p.boot_flag <;> simp only [hpb] <;> decide
  · have hz : p.partition_type = 0 := by omega
    simp only [create_partition, if_neg hp, le32, List.cons_append,
      List.nil_append]
    rw [read_partition_explicit]
    refine ⟨?_, ?_, ?_, ?_⟩
    · show ((0 : Nat) : Int) = p.partition_type
      omega
    · exact le32_decode _ hoff
    · exact le32_decode _ heff
    · intro hne
      exact absurd hz hne

/-- C2 (amended): for a valid table free of uint32 overflow, encoding with
neither bootstrap nor OSIP and decoding the resulting 512-byte record
recovers partition_type and block_offset for every slot; block_count
decodes to the encoded effective count, which equals the declared
block_count whenever the expand-grow case does not apply; and boot_flag is
recovered for every slot with nonzero type (a type-0 slot always decodes
with boot_flag false). -/
theorem mbr_roundtrip (t : mbr_table) (sig nb : Nat)
    (hwf : ∀ i : Fin 4,
      (t.partitions i).block_offset + (t.partitions i).block_count < U32)
    (hv : mbr_verify t = true) :
    ∃ buf, mbr_create t none osip_none sig nb = .ok buf ∧
      (mbr_decode buf).1 = 0 ∧
      ∀ i : Fin 4,
        ((mbr_decode buf).2.partitions i).partition_type =
          (t.partitions i).partition_type ∧
        ((mbr_decode buf).2.partitions i).block_offset =
          (t.partitions i).block_offset ∧
        ((mbr_decode buf).2.partitions i).block_count =
          effective_count (t.partitions i) nb ∧
        ((t.partitions i).partition_type ≠ 0 →
          ((mbr_decode buf).2.partitions i).boot_flag =
            (t.partitions i).boot_flag) ∧
        (¬((t.partitions i).expand_flag = true ∧
            (t.partitions i).block_offset + (t.partitions i).block_count < nb) →
          ((mbr_decode buf).2.partitions i).block_count =
            (t.partitions i).block_count) := by
  rcases (mbr_verify_true_iff t).1 hv with ⟨htyB, -, -⟩
  have hty : ∀ i : Fin 4, 0 ≤ (t.partitions i).partition_type ∧
      (t.partitions i).partition_type ≤ 255 := by
    intro i
    have h := htyB i
    rwa [type_ok, decide_eq_true_iff] at h
  set e0 := create_partition (t.partitions 0) nb with he0
  set e1 := create_partition (t.partitions 1) nb with he1
  set e2 := create_partition (t.partitions 2) nb with he2
  set e3 := create_partition (t.partitions 3) nb with he3
  set buf := List.replicate 440 0 ++ le32 sig ++ [0, 0] ++
    e0 ++ e1 ++ e2 ++ e3 ++ [85, 170] with hbuf
  have hl0 : e0.length = 16 := by rw [he0]; exact create_partition_length _ _
  have hl1 : e1.length = 16 := by rw [he1]; exact create_partition_length _ _
  have hl2 : e2.length = 16 := by rw [he2]; exact create_partition_length _ _
  have hl3 : e3.length = 16 := by rw [he3]; exact create_partition_length _ _
  have hpre : (List.replicate 440 0 ++ le32 sig ++ [0, 0] ++
      e0 ++ e1 ++ e2 ++ e3).length = 510 := by
    simp only [List.length_append, List.length_replicate, le32,
      List.length_cons, List.length_nil, hl0, hl1, hl2, hl3]
  have h510 : buf.getD 510 0 = 85 := by
    rw [hbuf, getD_append_at _ _ 510 510 0 hpre (le_refl _)]
    rfl
  have h511 : buf.getD 511 0 = 170 := by
    rw [hbuf, getD_append_at _ _ 510 511 0 hpre (by omega)]
    rfl
  have hdec : mbr_decode buf =
      (0, ⟨fun i => read_partition ((buf.drop (446 + 16 * i.val)).take 16)⟩) := by
    rw [mbr_decode, if_neg (by push_neg; exact ⟨h510, h511⟩)]
  have l446 : (List.replicate 440 0 ++ le32 sig ++ [0, 0]).length = 446 := by
    rw [List.length_append, List.length_append, List.length_replicate]
    rfl
  have l462 : ((List.replicate 440 0 ++ le32 sig ++ [0, 0]) ++ e0).length
      = 462 := by
    rw [List.length_append, l446, hl0]
  have l478 : (((List.replicate 440 0 ++ le32 sig ++ [0, 0]) ++ e0) ++
      e1).length = 478 := by
    rw [List.length_append, l462, hl1]
  have l494 : ((((List.replicate 440 0 ++ le32 sig ++ [0, 0]) ++ e0) ++ e1) ++
      e2).length = 494 := by
    rw [List.length_append, l478, hl2]
  have hassoc0 : buf = (List.replicate 440 0 ++ le32 sig ++ [0, 0]) ++
      (e0 ++ (e1 ++ (e2 ++ (e3 ++ [85, 170])))) := by
    rw [hbuf]; simp only [List.append_assoc]
  have hassoc1 : buf = ((List.replicate 440 0 ++ le32 sig ++ [0, 0]) ++ e0) ++
      (e1 ++ (e2 ++ (e3 ++ [85, 170]))) := by
    rw [hbuf]; simp only [List.append_assoc]
  have hassoc2 : buf = (((List.replicate 440 0 ++ le32 sig ++ [0, 0]) ++ e0) ++
      e1) ++ (e2 ++ (e3 ++ [85, 170])) := by
    rw [hbuf]; simp only [List.append_assoc]
  have hassoc3 : buf = ((((List.replicate 440 0 ++ le32 sig ++ [0, 0]) ++ e0) ++
      e1) ++ e2) ++ (e3 ++ [85, 170]) := by
    rw [hbuf]; simp only [List.append_assoc]
  have hd0 : (buf.drop 446).take 16 = e0 := by
    rw [hassoc0, List.drop_left' l446, List.take_left' hl0]
  have hd1 : (buf.drop 462).take 16 = e1 := by
    rw [hassoc1, List.drop_left' l462, List.take_left' hl1]
  have hd2 : (buf.drop 478).take 16 = e2 := by
    rw [hassoc2, List.drop_left' l478, List.take_left' hl2]
  have hd3 : (buf.drop 494).take 16 = e3 := by
    rw [hassoc3, List.drop_left' l494, List.take_left' hl3]
  have hdi : ∀ i : Fin 4, (buf.drop (446 + 16 * i.val)).take 16 =
      create_partition (t.partitions i) nb := by
    intro i
    fin_cases i
    · exact hd0
    · exact hd1
    · exact hd2
    · exact hd3
  have hpart : ∀ i : Fin 4, (mbr_decode buf).2.partitions i =
      read_partition (create_partition (t.partitions i) nb) := by
    intro i
    rw [hdec]
    show read_partition ((buf.drop (446 + 16 * i.val)).take 16) = _
    rw [hdi i]
  refine ⟨buf, ?_, ?_, ?_⟩
  · rw [mbr_create, if_neg (by simp [osip_none]), if_neg (by simp [hv])]
    rfl
  · rw [hdec]
  · intro i
    have hread := read_create_fields (t.partitions i) nb
      (by have := hwf i; omega) (by have := hwf i; omega)
      (hty i).1 (hty i).2
    rw [hpart i]
    refine ⟨hread.1, hread.2.1, hread.2.2.1, hread.2.2.2, ?_⟩
    intro hng
    rw [hread.2.2.1, effective_count,
      if_neg (by rw [Nat.mod_eq_of_lt (hwf i)]; exact fun h => hng ⟨h.1, h.2⟩)]

set_option maxRecDepth 100000 in
/-- C2, counterexample to the claim as stated: c2_table is valid and has
boot_flag true on its type-0 slot 0, yet encoding and decoding returns
boot_flag false for that slot, because create_partition clears the first
8 bytes of a type-0 entry. -/
theorem c2_counterexample :
    mbr_verify c2_table = true ∧
    (c2_table.partitions 0).boot_flag = true ∧
    (mbr_create c2_table none osip_none 0 0).toOption.map
      (fun buf => ((mbr_decode buf).2.partitions 0).boot_flag) = some false := by
  decide

/-- C2, witness: the round-trip theorem applied at a concrete valid table
with signature 7 and unknown device size. -/
theorem c2_roundtrip_witness :
    ∃ buf, mbr_create c2_witness_table none osip_none 7 0 = .ok buf ∧
      (mbr_decode buf).1 = 0 ∧
      ∀ i : Fin 4,
        ((mbr_decode buf).2.partitions i).partition_type =
          (c2_witness_table.partitions i).partition_type ∧
        ((mbr_decode buf).2.partitions i).block_offset =
          (c2_witness_table.partitions i).block_offset ∧
        ((mbr_decode buf).2.partitions i).block_count =
          effective_count (c2_witness_table.partitions i) 0 ∧
        ((c2_witness_table.partitions i).partition_type ≠ 0 →
          ((mbr_decode buf).2.partitions i).boot_flag =
            (c2_witness_table.partitions i).boot_flag) ∧
        (¬((c2_witness_table.partitions i).expand_flag = true ∧
            (c2_witness_table.partitions i).block_offset +
              (c2_witness_table.partitions i).block_count < 0) →
          ((mbr_decode buf).2.partitions i).block_count =
            (c2_witness_table.partitions i).block_count) :=
  mbr_roundtrip c2_witness_table 7 0 (by decide) (by decide)

/-- Entries already written are preserved as a prefix of any successful
result of the resign loop. -/
lemma fwup_sign_loop_prefix (sign : List Nat → List Nat) :
    ∀ (entries : List archive_entry) (cfg : Option (List Nat))
      (out r : List archive_entry),
      fwup_sign_loop sign entries cfg out = .ok r → ∃ s, r = out ++ s := by
  intro entries
  induction entries with
  | nil =>
    intro cfg out r h
    cases cfg with
    | none => simp [fwup_sign_loop] at h
    | some c =>
      simp only [fwup_sign_loop, Except.ok.injEq] at h
      exact ⟨[], by rw [← h, List.append_nil]⟩
  | cons e rest ih =>
    intro cfg out r h
    simp only [fwup_sign_loop] at h
    by_cases h1 : e.pathname = "meta.conf.ed25519"
    · rw [if_pos h1] at h
      exact ih cfg out r h
    · rw [if_neg h1] at h
      by_cases h2 : e.pathname = "meta.conf"
      · rw [if_pos h2] at h
        cases cfg with
        | some c => simp at h
        | none =>
          by_cases h3 : e.data.length < 10 ∨ e.data.length ≥ 50000
          · rw [if_pos h3] at h
            simp at h
          · rw [if_neg h3] at h
            rcases ih _ _ _ h with ⟨s, hs⟩
            exact ⟨fwfile_add_meta_conf_str sign e.data ++ s,
              by rw [hs, List.append_assoc]⟩
      · rw [if_neg h2] at h
        cases cfg with
        | none => simp at h
        | some c =>
          rcases ih _ _ _ h with ⟨s, hs⟩
          exact ⟨[⟨e.pathname, 420, AE_IFREG, e.data⟩] ++ s,
            by rw [hs, List.append_assoc]⟩

/-- Any entry other than the two special names reached while the
configuration text is still missing makes the resign loop fail with the
ordering error, regardless of the stale signature entries skipped before
it. -/
lemma fwup_sign_loop_order_error (sign : List Nat → List Nat)
    (e : archive_entry) (rest : List archive_entry)
    (h1 : e.pathname ≠ "meta.conf.ed25519") (h2 : e.pathname ≠ "meta.conf") :
    ∀ (pre out : List archive_entry),
      (∀ x ∈ pre, x.pathname = "meta.conf.ed25519") →
      fwup_sign_loop sign (pre ++ e :: rest) none out =
        .error "Invalid firmware. meta.conf must be at the beginning of archive" := by
  intro pre
  induction pre with
  | nil =>
    intro out hp
    rw [List.nil_append]
    simp only [fwup_sign_loop]
    rw [if_neg h1, if_neg h2]
  | cons p pre ih =>
    intro out hp
    rw [List.cons_append]
    simp only [fwup_sign_loop]
    rw [if_pos (hp p (by simp))]
    exact ih out (fun x hx => hp x (by simp [hx]))

/-- A successful resign starts its output with the configuration entry. -/
lemma fwup_sign_ok_head (sign : List Nat → List Nat) :
    ∀ (entries : List archive_entry) (out : List archive_entry),
      fwup_sign sign entries = .ok out →
      ∃ hd tl, out = hd :: tl ∧ hd.pathname = "meta.conf" := by
  have main : ∀ (entries : List archive_entry) (out : List archive_entry),
      fwup_sign_loop sign entries none [] = .ok out →
      ∃ hd tl, out = hd :: tl ∧ hd.pathname = "meta.conf" := by
    intro entries
    induction entries with
    | nil =>
      intro out h
      simp [fwup_sign_loop] at h
    | cons e rest ih =>
      intro out h
      simp only [fwup_sign_loop] at h
      by_cases h1 : e.pathname = "meta.conf.ed25519"
      · rw [if_pos h1] at h
        exact ih out h
      · rw [if_neg h1] at h
        by_cases h2 : e.pathname = "meta.conf"
        · rw [if_pos h2] at h
          by_cases h3 : e.data.length < 10 ∨ e.data.length ≥ 50000
          · rw [if_pos h3] at h
            simp at h
          · rw [if_neg h3] at h
            rcases fwup_sign_loop_prefix sign rest _ _ _ h with ⟨s, hs⟩
            refine ⟨⟨"meta.conf", 420, AE_IFREG, e.data⟩,
              ⟨"meta.conf.ed25519", 420, AE_IFREG, sign e.data⟩ :: s, ?_, rfl⟩
            rw [hs]
            rfl
        · rw [if_neg h2] at h
          simp at h
  intro entries out h
  exact main entries out h

/-- C7: if some entry other than meta.conf.ed25519 precedes every
meta.conf entry in sequential order, Resign fails (and hence writes
nothing over the output path, which the model renders as the error
result); and whenever Resign succeeds, the first entry of the output
archive is the configuration entry. -/
theorem fwup_sign_ordering (sign : List Nat → List Nat)
    (pre rest : List archive_entry) (e : archive_entry)
    (hpre : ∀ x ∈ pre, x.pathname = "meta.conf.ed25519")
    (h1 : e.pathname ≠ "meta.conf.ed25519") (h2 : e.pathname ≠ "meta.conf") :
    (fwup_sign sign (pre ++ e :: rest)).isOk = false ∧
    (∀ entries out, fwup_sign sign entries = .ok out →
      ∃ hd tl, out = hd :: tl ∧ hd.pathname = "meta.conf") := by
  constructor
  · rw [fwup_sign, fwup_sign_loop_order_error sign e rest h1 h2 pre [] hpre]
    rfl
  · exact fwup_sign_ok_head sign

/-- C7, witness: the ordering theorem applied at a concrete bad archive,
and its success half applied at a concrete good archive. -/
theorem c7_witness :
    (fwup_sign sign0 c7_bad_entries).isOk = false ∧
    (∃ hd tl,
      ([⟨"meta.conf", 420, AE_IFREG, List.replicate 12 7⟩,
        ⟨"meta.conf.ed25519", 420, AE_IFREG, [1, 2, 3]⟩,
        ⟨"data.img", 420, AE_IFREG, [1, 2]⟩] : List archive_entry) =
          hd :: tl ∧
      hd.pathname = "meta.conf") := by
  have h := fwup_sign_ordering sign0
    [⟨"meta.conf.ed25519", 420, AE_IFREG, [0]⟩] []
    ⟨"data.img", 493, AE_IFREG, [1, 2]⟩
    (by intro x hx; simp at hx; rw [hx]) (by decide) (by decide)
  exact ⟨h.1, h.2 c7_good_entries _ rfl⟩

/-- The bitmask membership test of the config projectors: anding with a
single shifted bit is nonzero exactly when that bit is set. -/
lemma and_shift_ne_zero (found ix : Nat) :
    (found &&& (1 <<< ix) ≠ 0) ↔ found.testBit ix = true := by
  rw [Nat.shiftLeft_eq, one_mul, Nat.and_two_pow]
  cases h : found.testBit ix <;> simp [h]

/-- Setting one bit in the bitmask sets exactly that bit. -/
lemma testBit_after_set (found ix k : Nat) :
    (found ||| (1 <<< ix)).testBit k = (found.testBit k || decide (ix = k)) := by
  rw [Nat.testBit_lor, Nat.shiftLeft_eq, one_mul]
  congr 1
  by_cases h : ix = k
  · subst h
    simp [Nat.testBit_two_pow_self]
  · simp [Nat.testBit_two_pow_of_ne h, h]

/-- Reaching an osii subsection whose index is 15 or more always makes the
osii loop fail. -/
lemma osip_loop_err_oob (s : osii_section) (h15 : 15 ≤ s.ix) :
    ∀ (secs : List osii_section) (found : Nat) (largest : Int)
      (ds : Fin 16 → osii), s ∈ secs →
      ∃ msg, osip_loop secs found largest ds = .error msg := by
  intro secs
  induction secs with
  | nil => intro found largest ds hmem; cases hmem
  | cons a rest ih =>
    intro found largest ds hmem
    simp only [osip_loop]
    by_cases ha : a.ix ≥ 15
    · rw [if_pos ha]; exact ⟨_, rfl⟩
    · rw [if_neg ha]
      by_cases hd : found &&& (1 <<< a.ix) ≠ 0
      · rw [if_pos hd]; exact ⟨_, rfl⟩
      · rw [if_neg hd]
        rcases List.mem_cons.1 hmem with rfl | hmem2
        · exact absurd h15 (by omega)
        · exact ih _ _ _ hmem2

/-- If some upcoming osii subsection has a valid index whose bit is
already set, the osii loop fails. -/
lemma osip_loop_err_seen :
    ∀ (secs : List osii_section) (found : Nat) (largest : Int)
      (ds : Fin 16 → osii),
      (∃ s ∈ secs, s.ix < 15 ∧ found.testBit s.ix = true) →
      ∃ msg, osip_loop secs found largest ds = .error msg := by
  intro secs
  induction secs with
  | nil =>
    rintro found largest ds ⟨s, hmem, -⟩
    cases hmem
  | cons a rest ih =>
    rintro found largest ds ⟨s, hmem, hlt, hbit⟩
    simp only [osip_loop]
    by_cases ha : a.ix ≥ 15
    · rw [if_pos ha]; exact ⟨_, rfl⟩
    · rw [if_neg ha]
      by_cases hd : found &&& (1 <<< a.ix) ≠ 0
      · rw [if_pos hd]; exact ⟨_, rfl⟩
      · rw [if_neg hd]
        rcases List.mem_cons.1 hmem with rfl | hmem2
        · exact absurd ((and_shift_ne_zero found s.ix).2 hbit) hd
        · refine ih _ _ _ ⟨s, hmem2, hlt, ?_⟩
          rw [testBit_after_set]
          simp [hbit]

/-- A duplicate osii index always makes the osii loop fail. -/
lemma osip_loop_err_dup :
    ∀ (secs : List osii_section) (found : Nat) (largest : Int)
      (ds : Fin 16 → osii),
      ¬ (secs.map (fun s => s.ix)).Nodup →
      ∃ msg, osip_loop secs found largest ds = .error msg := by
  intro secs
  induction secs with
  | nil =>
    intro found largest ds h
    exact absurd List.nodup_nil h
  | cons a rest ih =>
    intro found largest ds hnd
    simp only [osip_loop]
    by_cases ha : a.ix ≥ 15
    · rw [if_pos ha]; exact ⟨_, rfl⟩
    · rw [if_neg ha]
      by_cases hd : found &&& (1 <<< a.ix) ≠ 0
      · rw [if_pos hd]; exact ⟨_, rfl⟩
      · rw [if_neg hd]
        rw [List.map_cons, List.nodup_cons] at hnd
        rcases not_and_or.1 hnd with hmem | hnd2
        · push_neg at hmem
          rcases List.mem_map.1 hmem with ⟨s, hsmem, hsix⟩
          refine osip_loop_err_seen rest _ _ _ ⟨s, hsmem, by omega, ?_⟩
          rw [testBit_after_set, hsix]
          simp
        · exact ih _ _ _ hnd2

/-- The largest index returned by a successful osii loop is the fold of
the section indices over the starting value. -/
lemma osip_loop_largest :
    ∀ (secs : List osii_section) (found : Nat) (largest : Int)
      (ds : Fin 16 → osii) (f : Nat) (l : Int) (d : Fin 16 → osii),
      osip_loop secs found largest ds = .ok (f, l, d) →
      l = secs.foldl (fun a s => max a (s.ix : Int)) largest := by
  intro secs
  induction secs with
  | nil =>
    intro found largest ds f l d h
    simp only [osip_loop, Except.ok.injEq, Prod.mk.injEq] at h
    rw [← h.2.1]
    rfl
  | cons a rest ih =>
    intro found largest ds f l d h
    simp only [osip_loop] at h
    by_cases ha : a.ix ≥ 15
    · rw [if_pos ha] at h; simp at h
    · rw [if_neg ha] at h
      by_cases hd : found &&& (1 <<< a.ix) ≠ 0
      · rw [if_pos hd] at h; simp at h
      · rw [if_neg hd] at h
        rw [List.foldl_cons]
        have hmax : (if (a.ix : Int) > largest then (a.ix : Int) else largest) =
            max largest (a.ix : Int) := by
          by_cases hc : (a.ix : Int) > largest
          · rw [if_pos hc, max_eq_right (by omega)]
          · rw [if_neg hc, max_eq_left (by omega)]
        rw [← hmax]
        exact ih _ _ _ _ _ _ h

/-- C8: osii projection (with include-osip set) fails when any osii index
is 15 or more, fails on a duplicated index, and on success derives
num_images as the highest index plus one. -/
theorem mbr_cfg_to_osip_spec (cfg : mbr_cfg)
    (hinc : cfg.include_osip = true) :
    ((∃ s ∈ cfg.osii_sections, 15 ≤ s.ix) →
       ∃ msg, mbr_cfg_to_osip cfg = .error msg) ∧
    (¬ (cfg.osii_sections.map (fun s => s.ix)).Nodup →
       ∃ msg, mbr_cfg_to_osip cfg = .error msg) ∧
    (∀ h, mbr_cfg_to_osip cfg = .ok h →
       h.num_images =
         ((cfg.osii_sections.map (fun s => (s.ix : Int))).foldl max (-1)
           + 1).toNat) := by
  have hunfold : mbr_cfg_to_osip cfg =
      match osip_loop cfg.osii_sections 0 (-1) (fun _ => zero_osii) with
      | .error e => .error e
      | .ok (_, largest, ds) =>
        let num_images := (largest + 1).toNat
        if num_images = 0 then .error "need to specify one or more osii"
        else
          .ok ⟨true, cfg.osip_minor % 256, cfg.osip_major % 256,
               cfg.osip_num_pointers % 256, num_images, ds⟩ := by
    rw [mbr_cfg_to_osip, if_neg (by simp [hinc])]
  refine ⟨?_, ?_, ?_⟩
  · rintro ⟨s, hmem, h15⟩
    rcases osip_loop_err_oob s h15 cfg.osii_sections 0 (-1)
      (fun _ => zero_osii) hmem with ⟨msg, hm⟩
    rw [hunfold, hm]
    exact ⟨msg, rfl⟩
  · intro hnd
    rcases osip_loop_err_dup cfg.osii_sections 0 (-1)
      (fun _ => zero_osii) hnd with ⟨msg, hm⟩
    rw [hunfold, hm]
    exact ⟨msg, rfl⟩
  · intro h hok
    rw [hunfold] at hok
    cases hloop : osip_loop cfg.osii_sections 0 (-1) (fun _ => zero_osii) with
    | error e => rw [hloop] at hok; simp at hok
    | ok v =>
      rcases v with ⟨f, l, d⟩
      rw [hloop] at hok
      simp only at hok
      by_cases hz : (l + 1).toNat = 0
      · rw [if_pos hz] at hok; simp at hok
      · rw [if_neg hz] at hok
        simp only [Except.ok.injEq] at hok
        have hl := osip_loop_largest cfg.osii_sections 0 (-1)
          (fun _ => zero_osii) f l d hloop
        rw [← hok]
        simp only [List.foldl_map]
        rw [← hl]

/-- C8, witness: the projection theorem applied at the osii "15"
configuration (which fails) and at a two-image configuration, whose
num_images comes out as the highest index 2 plus one. -/
theorem c8_witness :
    (∃ msg, mbr_cfg_to_osip c8_bad_cfg = .error msg) ∧
    (mbr_cfg_to_osip c8_good_cfg).isOk = true ∧
    (∀ h, mbr_cfg_to_osip c8_good_cfg = .ok h → h.num_images = 3) := by
  refine ⟨?_, ?_, ?_⟩
  · exact (mbr_cfg_to_osip_spec c8_bad_cfg rfl).1
      ⟨⟨15, 0, 0, 0, 0, 0, 0, 0⟩, by simp [c8_bad_cfg], by decide⟩
  · rfl
  · intro h hok
    have := (mbr_cfg_to_osip_spec c8_good_cfg rfl).2.2 h hok
    rw [this]
    decide

/-- C9: on a 512-byte buffer, when the 0x55 0xaa trailer is missing,
mbr_decode returns -1 and leaves the caller table all zero (the memset ran
before the check); and on success the expand_flag of every slot, which
read_partition never assigns, stays at the zero left by the memset. -/
theorem mbr_decode_zeroing (input : List Nat) (hlen : input.length = 512) :
    ((input.getD 510 0 ≠ 85 ∨ input.getD 511 0 ≠ 170) →
      mbr_decode input = (-1, zero_table)) ∧
    ((mbr_decode input).1 = 0 →
      ∀ i : Fin 4, ((mbr_decode input).2.partitions i).expand_flag = false) := by
  constructor
  · intro hbad
    rw [mbr_decode, if_pos hbad]
  · intro hrc i
    by_cases hbad : input.getD 510 0 ≠ 85 ∨ input.getD 511 0 ≠ 170
    · rw [mbr_decode, if_pos hbad] at hrc
      simp at hrc
    · rw [mbr_decode, if_neg hbad]
      rfl

set_option maxRecDepth 8192 in
/-- C9, witness: the decode theorem applied at an all-zero 512-byte buffer
(missing trailer) and at a zero buffer carrying the trailer. -/
theorem c9_witness :
    mbr_decode (List.replicate 512 0) = (-1, zero_table) ∧
    (∀ i : Fin 4,
      ((mbr_decode (List.replicate 510 0 ++ [85, 170])).2.partitions
        i).expand_flag = false) := by
  have h1 := mbr_decode_zeroing (List.replicate 512 0) (by simp)
  have h2 := mbr_decode_zeroing (List.replicate 510 0 ++ [85, 170]) (by simp)
  exact ⟨h1.1 (by decide), h2.2 (by decide)⟩

set_option maxRecDepth 100000 in
/-- C10: the verify-only entry point rejects the configuration with zero
partition sections as an empty partition table, while the encoding entry
point accepts the same configuration for every num_blocks and produces the
record whose four 16-byte partition entries are all zero (type 0). -/
theorem cfg_entry_points_disagree (nb : Nat) :
    mbr_verify_cfg c10_cfg = .error "empty partition table?" ∧
    mbr_create_cfg c10_cfg nb = .ok (List.replicate 510 0 ++ [85, 170]) := by
  constructor
  · rfl
  · have hcp : create_partition ⟨false, false, 0, 0, 0⟩ nb = List.replicate 16 0 := by
      simp [create_partition, effective_count, le32]
    have s3 : mbr_create_cfg c10_cfg nb =
        mbr_create ⟨zero_partitions⟩ none
          ⟨false, 0, 0, 0, 0, fun _ => zero_osii⟩ 0 nb := rfl
    have hvz : mbr_verify ⟨zero_partitions⟩ = true := by decide
    rw [s3, mbr_create, if_neg (by simp), if_neg (by simp [hvz])]
    simp only [zero_partitions, hcp, Bool.false_eq_true, if_false,
      Except.ok.injEq]
    decide
